import Mathlib

/-!
Verification development for the graphql-validity resolver-interception and
validation-aggregation engine.

The embedding follows the repository sources:
  * src/src/schema-wrapper.ts : the registry (FieldValidationDefinitions),
    getValidators, getValidationResults, getResponseValidationResults,
    onUnhandledError, and the Processed-marker wrapping logic
    (wrapField / wrapType / wrapSchema).
  * src/unnamed/part_001 (index.ts) : the full wrapped resolver installed by
    wrapField: context discovery by argument scan, lazy once-per-request
    global validation, local validation, resolver invocation,
    DataValidationResult unwrapping, profiling, and error wrapping.
  * src/unnamed/part_000 (profiling.ts) : storeProfilingInfo.

JavaScript mutation is rendered as explicit state passing; async/await
interleaving across concurrently resolving fields is rendered as a
small-step scheduler over task phases (suspension points are exactly the
awaited validator calls, matching the source where the globalResults
check-and-initialise runs synchronously with no await in between).
-/

/-- A JS Error value. Only the message is modelled; the stack trace and
console logging are side effects outside the embedding. -/
structure JSError where
  message : String
deriving Repr, DecidableEq

/-- A validation result object produced by a validator. It carries the
message plus a source-internal field standing for any additional
properties a validator may attach; such fields must never reach the
response. -/
structure VResult where
  message : String
  internalData : String
deriving Repr, DecidableEq

/-- A response-level error object, as produced by the response merger
projection: it has no field other than the message. -/
structure RespError where
  message : String
deriving Repr, DecidableEq

/-- A JS value returned by a resolver (enough structure for the claims). -/
inductive Value
  | int (n : Int)
  | str (s : String)
  | null
deriving Repr, DecidableEq

/-- The value produced by the original resolver: either a plain value, or a
DataValidationResult wrapper instance carrying data plus errors, exactly the
two shapes distinguished by the instanceof check in index.ts. The wrapper
class itself lives in helpers.ts (not among the provided sources); its shape
(.data and .errors) is exactly as accessed by index.ts lines 162-177. -/
inductive ResolveOutput
  | value (v : Value)
  | dataValidationResult (data : Value) (errors : List VResult)
deriving Repr, DecidableEq

instance exceptDecEq {ε α : Type} [DecidableEq ε] [DecidableEq α] :
    DecidableEq (Except ε α) := fun x y =>
  match x, y with
  | .error a, .error b =>
    if h : a = b then .isTrue (congrArg Except.error h)
    else .isFalse (fun hc => h (Except.error.inj hc))
  | .ok a, .ok b =>
    if h : a = b then .isTrue (congrArg Except.ok h)
    else .isFalse (fun hc => h (Except.ok.inj hc))
  | .error _, .ok _ => .isFalse (fun hc => Except.noConfusion hc)
  | .ok _, .error _ => .isFalse (fun hc => Except.noConfusion hc)

/-- One registered validator: an identity (registration id) together with the
behaviour of awaiting validator.call(this, ...args) during the invocation
under study: it either returns a list of violation records or throws. -/
structure Validator where
  vid : Nat
  run : Except JSError (List VResult)
deriving Repr, DecidableEq

/-- The violation list a validator behaviour contributes when awaited: its
returned list if it resolves, nothing if it throws (the push after the
await never runs). -/
def Validator.results (v : Validator) : List VResult :=
  match v.run with
  | .ok rs => rs
  | .error _ => []

/-- True when awaiting the validator does not throw. -/
def Validator.isOk (v : Validator) : Bool :=
  match v.run with
  | .ok _ => true
  | .error _ => false

/-- FieldValidationDefinitions: the selector-keyed registry object.
An absent key is modelled as none; JS field access with fallback
(defs[k] or []) is lookupDefs. -/
def Registry := String → Option (List Validator)

/-- Registry lookup with the source's fallback to the empty list. -/
def lookupDefs (defs : Registry) (k : String) : List Validator :=
  (defs k).getD []

/-- The name-facing data of a schema field as used by getValidators:
field.name and the string coercion of field.type used as a registry key. -/
structure FieldInfo where
  name : String
  typeName : String
deriving Repr, DecidableEq

/-- getValidators from schema-wrapper.ts lines 264-285: local validators are
defs[star] concat defs[field.type] concat defs[parentTypeName : field.name],
each falling back to the empty list; global validators are defs[dollar]. -/
def getValidators (defs : Registry) (field : FieldInfo) (parentTypeName : String) :
    List Validator × List Validator :=
  (lookupDefs defs "*" ++ lookupDefs defs field.typeName
      ++ lookupDefs defs (parentTypeName ++ ":" ++ field.name),
   lookupDefs defs "$")

/-- One profiling record, as assembled in index.ts lines 184-190. -/
structure Profile where
  name : String
  validation : Int
  execution : Int
  fieldsExecution : Int
  totalExecution : Int
deriving Repr, DecidableEq

/-- A stored profiling entry: path plus profile (profiling.ts line 40). -/
structure ProfEntry where
  path : String
  profile : Profile
deriving Repr, DecidableEq

/-- The per-request validation context object attached by the adapter as
request.__graphQLValidity (or rootValue.__graphQLValidity): local results,
the lazily initialised global results (absent = not yet run), and the
profiling data list. -/
structure Validity where
  validationResults : Option (List VResult)
  globalValidationResults : Option (List VResult)
  profilingData : List ProfEntry
deriving Repr, DecidableEq

/-- storeProfilingInfo from profiling.ts lines 39-41: push a path+profile
record on the context's profiling list. -/
def storeProfilingInfo (validity : Validity) (path : String) (profile : Profile) :
    Validity :=
  { validity with
      profilingData := validity.profilingData ++ [{ path := path, profile := profile }] }

/-- getValidationResults from schema-wrapper.ts lines 241-255: read the local
results list, initialising it to empty if absent, and read the global results
slot as-is. The possibly-updated context is returned alongside, rendering the
in-place initialisation. -/
def getValidationResults (v : Validity) :
    List VResult × Option (List VResult) × Validity :=
  match v.validationResults with
  | some l => (l, v.globalValidationResults, v)
  | none => ([], v.globalValidationResults,
      { v with validationResults := some [] })

/-- The response payload as far as the merger is concerned: its errors list,
possibly absent. -/
structure Payload where
  errors : Option (List RespError)
deriving Repr, DecidableEq

/-- The message-only projection applied by the merger to each validation
result (schema-wrapper.ts lines 117-121 and 124-128). -/
def projectMessage (e : VResult) : RespError :=
  { message := e.message }

/-- getResponseValidationResults from schema-wrapper.ts lines 110-130:
errors becomes existing errors (absent treated as empty), then local results
projected to message-only, then global results (absent treated as empty)
projected the same way. The source maps over ___validationResults unguarded;
the adapter always initialises that slot to an empty list, so an absent slot
is modelled as empty. -/
def getResponseValidationResults (validity : Validity) (data : Payload) : Payload :=
  let globalValidationResults := validity.globalValidationResults.getD []
  { data with
      errors := some ((data.errors.getD [])
        ++ (validity.validationResults.getD []).map projectMessage
        ++ globalValidationResults.map projectMessage) }

/-- onUnhandledError from schema-wrapper.ts lines 26-32: generate a fresh id,
log the original error server-side, and return a generic Error whose message
embeds the id. The freshly generated uuid is passed in explicitly (uuid
generation is external randomness); the console logging is a side effect
outside the embedding. -/
def onUnhandledError (u : String) (_error : JSError) : JSError :=
  { message := "An internal error occured, with following id:" ++ u
      ++ ", please contact Administrator!" }

/-- ValidityConfig as consumed by index.ts: wrapErrors, enableProfiling and
the error wrapper function (defaulted to onUnhandledError by wrapResolvers). -/
structure Config where
  wrapErrors : Bool
  enableProfiling : Bool
  unhandledErrorWrapper : JSError → JSError

/-- A resolver function as stored on a field: either an original resolver
(identified by id) or the interception wrapper installed by wrapField around
an inner resolver. Counting wrapped constructors counts interception layers. -/
inductive Resolver
  | original (id : Nat)
  | wrapped (inner : Resolver)
deriving Repr, DecidableEq

/-- A schema field as seen at wrap time: its resolve slot (possibly absent)
and its Processed marker. -/
structure WField where
  name : String
  typeName : String
  resolve : Option Resolver
  processed : Bool
deriving Repr, DecidableEq

/-- The wrap-time part of wrapField (schema-wrapper.ts lines 169-181 and
index.ts lines 98-107): if the field's Processed marker is set or it has no
resolver, do nothing; otherwise set the marker and replace the resolver with
the wrapper closure over the captured original. The marker is set
synchronously at wrap time, in the same step that installs the wrapper. -/
def wrapField (f : WField) : WField :=
  if f.processed ∨ f.resolve = none then f
  else { f with processed := true, resolve := f.resolve.map .wrapped }

/-- A schema type as seen at wrap time: its Processed marker, and its fields
when it exposes a getFields accessor (none models a type without one). -/
structure WTypeObj where
  name : String
  processed : Bool
  fields : Option (List WField)
deriving Repr, DecidableEq

/-- wrapType (schema-wrapper.ts lines 293-306): stop if the type's marker is
set or it has no field accessor, otherwise wrap every field. The type-level
marker is only ever read, never set, by the source. -/
def wrapType (t : WTypeObj) : WTypeObj :=
  if t.processed ∨ t.fields = none then t
  else { t with fields := t.fields.map (fun fs => fs.map wrapField) }

/-- A schema as seen at wrap time: its type map. -/
structure WSchema where
  types : List WTypeObj
deriving Repr, DecidableEq

/-- wrapSchema (schema-wrapper.ts lines 314-323): wrap every type of the
type map. -/
def wrapSchema (s : WSchema) : WSchema :=
  { s with types := s.types.map wrapType }

/-- One invocation argument of a resolver, restricted to the properties the
wrapper scans for (index.ts lines 115-124): a rootValue possibly carrying the
__graphQLValidity context, and (for the info argument) parentType and path. -/
structure Arg where
  rootValueValidity : Option Validity
  parentType : Option String
  path : String
deriving Repr

/-- The context-discovery scan of index.ts lines 115-118: the loop has no
break, so the last argument whose rootValue carries __graphQLValidity wins. -/
def findValidity (args : List Arg) : Option Validity :=
  args.foldl
    (fun acc arg =>
      match arg.rootValueValidity with
      | some v => some v
      | none => acc)
    none

/-- The ast-discovery scan of index.ts lines 120-123: the last argument with
a parentType property becomes the ast (and supplies parentTypeName). -/
def findAst (args : List Arg) : Option Arg :=
  args.foldl
    (fun acc arg =>
      match arg.parentType with
      | some _ => some arg
      | none => acc)
    none

/-- The parentTypeName the wrapper ends up passing to getValidators: the
parentType of the discovered ast argument; when no argument carries one the
JS string coercion of undefined produces the key prefix "undefined". -/
def discoveredParent (args : List Arg) : String :=
  ((findAst args).bind fun a => a.parentType).getD "undefined"

/-- The local validators selected for an invocation: the first component of
getValidators at the discovered parent type name. -/
def selectedLocal (defs : Registry) (field : FieldInfo) (args : List Arg) :
    List Validator :=
  (getValidators defs field (discoveredParent args)).1

/-- Run a validator list in order against an accumulator list, mirroring the
for-loop over validators: each successful await pushes its results onto the
shared list; the first throwing validator aborts the loop with its error,
leaving the pushes made so far in place. Returns the final list, the ids of
the validators that were called, and the aborting error if any. -/
def runValidatorsFrom (vs : List Validator) (acc : List VResult) :
    List VResult × List Nat × Option JSError :=
  match vs with
  | [] => (acc, [], none)
  | v :: rest =>
    match v.run with
    | .error e => (acc, [v.vid], some e)
    | .ok rs =>
      let out := runValidatorsFrom rest (acc ++ rs)
      (out.1, v.vid :: out.2.1, out.2.2)

/-- The observable outcome of one invocation of the wrapped resolver: the
value returned or error thrown, the final state of the discovered context
(none when no context was found), the ids of the global and local validators
that were awaited, and how many times the original resolver was called. -/
structure InvocationOut where
  output : Except JSError Value
  validity : Option Validity
  globalCalls : List Nat
  localCalls : List Nat
  resolverCalls : Nat
deriving Repr

/-- The catch-all of index.ts lines 198-204: a thrown error is replaced by
config.unhandledErrorWrapper when config.wrapErrors, else rethrown as-is. -/
def applyWrap (config : Config) (e : JSError) : JSError :=
  if config.wrapErrors then config.unhandledErrorWrapper e else e

/-- The replacement resolver installed by wrapField in index.ts lines
108-205, as the semantics of one invocation. Parameters: the config, the
field, the registry, the behaviour of awaiting the original resolver, the
invocation arguments, and the three Date.now() readings pst (entry), vet
(after the validation block) and eet (after unwrapping). The function mirrors
the source order: context discovery, lazy global validation, local
validation, resolver call, DataValidationResult unwrapping, profiling inside
its own try/catch, and the catch-all applying the error-wrapping policy. -/
def wrappedResolve (config : Config) (field : FieldInfo) (defs : Registry)
    (resolve : Except JSError ResolveOutput) (args : List Arg)
    (pst vet eet : Int) : InvocationOut :=
  let parentTypeName := discoveredParent args
  match findValidity args with
  | none =>
    match resolve with
    | .error e =>
      { output := .error (applyWrap config e), validity := none,
        globalCalls := [], localCalls := [], resolverCalls := 1 }
    | .ok out =>
      let result := match out with
        | .value v => v
        | .dataValidationResult d _ => d
      { output := .ok result, validity := none,
        globalCalls := [], localCalls := [], resolverCalls := 1 }
  | some validity0 =>
    let (validationResults, globalValidationResults, v1) :=
      getValidationResults validity0
    let (validators, globalValidators) := getValidators defs field parentTypeName
    let gout :=
      match globalValidationResults with
      | none =>
        let r := runValidatorsFrom globalValidators []
        ({ v1 with globalValidationResults := some r.1 }, r.2.1, r.2.2)
      | some _ => (v1, [], none)
    let v2 := gout.1
    let gids := gout.2.1
    match gout.2.2 with
    | some e =>
      { output := .error (applyWrap config e), validity := some v2,
        globalCalls := gids, localCalls := [], resolverCalls := 0 }
    | none =>
      let lr := runValidatorsFrom validators validationResults
      let v3 := { v2 with validationResults := some lr.1 }
      let lids := lr.2.1
      match lr.2.2 with
      | some e =>
        { output := .error (applyWrap config e), validity := some v3,
          globalCalls := gids, localCalls := lids, resolverCalls := 0 }
      | none =>
        match resolve with
        | .error e =>
          { output := .error (applyWrap config e), validity := some v3,
            globalCalls := gids, localCalls := lids, resolverCalls := 1 }
        | .ok out =>
          let ru :=
            match out with
            | .value v => (v, v3)
            | .dataValidationResult d errs =>
              let gr := getValidationResults v3
              (d, if errs = [] then gr.2.2
                  else { gr.2.2 with validationResults := some (gr.1 ++ errs) })
          let v5 :=
            if config.enableProfiling then
              match findAst args with
              | none => ru.2
              | some ast =>
                storeProfilingInfo ru.2 ast.path
                  { name := field.name, validation := vet - pst,
                    execution := eet - pst, fieldsExecution := 0,
                    totalExecution := (eet - pst) - (vet - pst) }
            else ru.2
          { output := .ok ru.1, validity := some v5,
            globalCalls := gids, localCalls := lids, resolverCalls := 1 }

/-- Flattened results of a validator list (what a full successful run
appends, in order). -/
def flatResults : List Validator → List VResult
  | [] => []
  | v :: rest => v.results ++ flatResults rest

theorem flatResults_append (l1 l2 : List Validator) :
    flatResults (l1 ++ l2) = flatResults l1 ++ flatResults l2 := by
  induction l1 with
  | nil => simp [flatResults]
  | cons v rest ih => simp [flatResults, ih]

/-- A run over all-ok validators executes each in order, appends each result
list, and raises no error. -/
theorem runValidatorsFrom_allOk (vs : List Validator) (acc : List VResult)
    (h : ∀ v ∈ vs, v.isOk = true) :
    runValidatorsFrom vs acc =
      (acc ++ flatResults vs, vs.map Validator.vid, none) := by
  induction vs generalizing acc with
  | nil => simp [runValidatorsFrom, flatResults]
  | cons v rest ih =>
    have hv : v.isOk = true := h v (by simp)
    have hrest : ∀ w ∈ rest, w.isOk = true := fun w hw => h w (by simp [hw])
    match hr : v.run with
    | .error e => simp [Validator.isOk, hr] at hv
    | .ok rs =>
      simp [runValidatorsFrom, hr, ih _ hrest, flatResults, Validator.results]

/-- A run that reaches a throwing validator keeps the prefix pushes, reports
exactly the prefix ids plus the thrower, and aborts with its error. -/
theorem runValidatorsFrom_throw (vs1 vs2 : List Validator) (bad : Validator)
    (acc : List VResult) (e : JSError)
    (h1 : ∀ v ∈ vs1, v.isOk = true) (hbad : bad.run = .error e) :
    runValidatorsFrom (vs1 ++ bad :: vs2) acc =
      (acc ++ flatResults vs1, vs1.map Validator.vid ++ [bad.vid], some e) := by
  induction vs1 generalizing acc with
  | nil => simp [runValidatorsFrom, hbad, flatResults]
  | cons v rest ih =>
    have hv : v.isOk = true := h1 v (by simp)
    have hrest : ∀ w ∈ rest, w.isOk = true := fun w hw => h1 w (by simp [hw])
    match hr : v.run with
    | .error e2 => simp [Validator.isOk, hr] at hv
    | .ok rs =>
      simp [runValidatorsFrom, hr, ih _ hrest, flatResults, Validator.results]

/-- The phase of one concurrently resolving field with respect to the
global-validation portion of its wrapped resolver. start: has not yet
reached the synchronous globalResults check; running rem: performed the
check-and-initialise and still has rem global validators to await;
failed e rem: a global validator threw e, the validators rem were never
awaited and the exception is propagating out of this field; done: past the
global portion (either it ran the whole list or it skipped). -/
inductive GPhase
  | start
  | running (rem : List Validator)
  | failed (e : JSError) (rem : List Validator)
  | done
deriving Repr

/-- Pointwise update of a task-phase assignment. -/
def updPhase (f : Nat → GPhase) (i : Nat) (p : GPhase) : Nat → GPhase :=
  fun j => if j = i then p else f j

/-- The request-global state relevant to global validation: the shared
context slot ___globalValidationResults, every task's phase, the total
number of global-validator awaits performed so far across all tasks, and
how many tasks have performed the check-and-initialise. -/
structure GState where
  globalResults : Option (List VResult)
  phase : Nat → GPhase
  execCount : Nat
  runs : Nat

/-- Request start: the adapter created the context with
___globalValidationResults undefined and no field has begun resolving. -/
def ginit : GState :=
  { globalResults := none, phase := fun _ => .start, execCount := 0, runs := 0 }

/-- One atomic step of task t under the cooperative scheduler. The check of
globalResults and, when it is absent, its initialisation to the empty list
form a single step: in the source (index.ts lines 137-139, schema-wrapper.ts
lines 203-206) no await separates the read from the write, so no other task
can run in between. Each awaited global validator is its own step whose
completion appends the returned violations to the shared list, or, when the
validator throws, moves the task to failed leaving the list untouched. -/
def gstep (gvs : List Validator) (s : GState) (t : Nat) : GState :=
  match s.phase t with
  | .start =>
    match s.globalResults with
    | none =>
      { s with globalResults := some [],
               phase := updPhase s.phase t (.running gvs),
               runs := s.runs + 1 }
    | some _ => { s with phase := updPhase s.phase t .done }
  | .running [] => { s with phase := updPhase s.phase t .done }
  | .running (v :: rem) =>
    match v.run with
    | .ok rs =>
      { s with globalResults := some (s.globalResults.getD [] ++ rs),
               phase := updPhase s.phase t (.running rem),
               execCount := s.execCount + 1 }
    | .error e =>
      { s with phase := updPhase s.phase t (.failed e rem),
               execCount := s.execCount + 1 }
  | .failed _ _ => s
  | .done => s

/-- Run a schedule: an arbitrary interleaving is an arbitrary list of task
choices. -/
def grun (gvs : List Validator) (s : GState) (sched : List Nat) : GState :=
  sched.foldl (gstep gvs) s

/-- The remaining-global-validators view of a phase: some rem for a task
inside (or aborted inside) the global run, none otherwise. -/
def activeRem : GPhase → Option (List Validator)
  | .running rem => some rem
  | .failed _ rem => some rem
  | _ => none

/-- The inductive invariant of the lazy-singleton global run. Either no task
has reached the check yet (slot absent, nothing executed), or exactly one
task ever performed the check-and-initialise; in the latter case the shared
list holds exactly the results of the first execCount registered validators,
and either the unique (still running or failed) task holds the untouched
suffix, or the run finished and every validator was awaited exactly once. -/
def GInv (gvs : List Validator) (s : GState) : Prop :=
  (s.globalResults = none ∧ s.runs = 0 ∧ s.execCount = 0 ∧ ∀ t, s.phase t = .start)
  ∨ (s.runs = 1 ∧ s.execCount ≤ gvs.length
      ∧ s.globalResults = some (flatResults (gvs.take s.execCount))
      ∧ ((∃ t, activeRem (s.phase t) = some (gvs.drop s.execCount)
            ∧ ∀ u, activeRem (s.phase u) ≠ none → u = t)
        ∨ ((∀ t, activeRem (s.phase t) = none) ∧ s.execCount = gvs.length)))

theorem updPhase_self (f : Nat → GPhase) (i : Nat) (p : GPhase) :
    updPhase f i p i = p := by
  simp [updPhase]

theorem updPhase_ne (f : Nat → GPhase) (i : Nat) (p : GPhase) (j : Nat)
    (h : j ≠ i) : updPhase f i p j = f j := by
  simp [updPhase, h]

theorem take_succ_of_drop_cons {l : List Validator} {k : Nat} {v : Validator}
    {rest : List Validator} (h : l.drop k = v :: rest) :
    l.take (k + 1) = l.take k ++ [v] := by
  have hget : l[k]? = some v := by
    have h0 : (l.drop k)[0]? = some v := by rw [h]; simp
    rw [List.getElem?_drop] at h0
    simpa using h0
  rw [List.take_succ, hget]
  rfl

theorem drop_succ_of_drop_cons {l : List Validator} {k : Nat} {v : Validator}
    {rest : List Validator} (h : l.drop k = v :: rest) :
    l.drop (k + 1) = rest := by
  have h1 : l.drop (k + 1) = (l.drop k).drop 1 := by
    rw [List.drop_drop, Nat.add_comm]
  rw [h1, h]
  rfl

theorem lt_of_drop_cons {l : List Validator} {k : Nat} {v : Validator}
    {rest : List Validator} (h : l.drop k = v :: rest) : k < l.length := by
  by_contra h2
  push_neg at h2
  rw [List.drop_eq_nil_of_le h2] at h
  exact List.noConfusion h

theorem GInv_ginit (gvs : List Validator) : GInv gvs ginit :=
  Or.inl ⟨rfl, rfl, rfl, fun _ => rfl⟩

theorem gstep_preserves_GInv (gvs : List Validator) (s : GState) (t : Nat)
    (h : GInv gvs s) : GInv gvs (gstep gvs s t) := by
  rcases h with ⟨hg, hr, he, hp⟩ | ⟨hr, hle, hg, hact⟩
  · -- first task to reach the check: it initialises and becomes the runner
    have hpt : s.phase t = .start := hp t
    simp only [gstep, hpt, hg]
    right
    refine ⟨by simp [hr], by simp [he], by simp [he, flatResults], Or.inl ⟨t, ?_, ?_⟩⟩
    · show activeRem (updPhase s.phase t (.running gvs) t) = some (gvs.drop s.execCount)
      rw [updPhase_self, he]
      rfl
    · intro u hu
      have hu2 : activeRem (updPhase s.phase t (.running gvs) u) ≠ none := hu
      by_contra hne
      rw [updPhase_ne _ _ _ _ hne, hp u] at hu2
      exact hu2 rfl
  · cases hpt : s.phase t with
    | start =>
      -- the slot is already present: the task skips the global run
      simp only [gstep, hpt, hg]
      right
      refine ⟨hr, hle, rfl, ?_⟩
      rcases hact with ⟨t0, ht0, huniq⟩ | ⟨hnone, hexec⟩
      · left
        have hne : t0 ≠ t := by
          intro hEq
          rw [hEq, hpt] at ht0
          exact Option.noConfusion ht0
        refine ⟨t0, ?_, ?_⟩
        · show activeRem (updPhase s.phase t .done t0) = some (gvs.drop s.execCount)
          rw [updPhase_ne _ _ _ _ hne]
          exact ht0
        · intro u hu
          have hu2 : activeRem (updPhase s.phase t .done u) ≠ none := hu
          by_cases hut : u = t
          · rw [hut, updPhase_self] at hu2
            exact absurd rfl hu2
          · rw [updPhase_ne _ _ _ _ hut] at hu2
            exact huniq u hu2
      · right
        refine ⟨?_, hexec⟩
        intro u
        show activeRem (updPhase s.phase t .done u) = none
        by_cases hut : u = t
        · rw [hut, updPhase_self]; rfl
        · rw [updPhase_ne _ _ _ _ hut]; exact hnone u
    | running rem =>
      rcases hact with ⟨t0, ht0, huniq⟩ | ⟨hnone, hexec⟩
      · have htt0 : t = t0 := by
          refine huniq t ?_
          rw [hpt]
          simp [activeRem]
        cases rem with
        | nil =>
          -- the runner exhausted the list: every validator was awaited
          have hdrop : gvs.drop s.execCount = [] := by
            have h2 := ht0
            rw [← htt0, hpt] at h2
            exact (Option.some.inj h2).symm
          have hlen : gvs.length ≤ s.execCount := by
            have h3 := congrArg List.length hdrop
            simp at h3
            omega
          have hexec_len : s.execCount = gvs.length := Nat.le_antisymm hle hlen
          simp only [gstep, hpt]
          right
          refine ⟨hr, hle, hg, Or.inr ⟨?_, hexec_len⟩⟩
          intro u
          show activeRem (updPhase s.phase t .done u) = none
          by_cases hut : u = t
          · rw [hut, updPhase_self]; rfl
          · rw [updPhase_ne _ _ _ _ hut]
            rcases hopt : activeRem (s.phase u) with _ | r
            · rfl
            · exfalso
              have hu0 := huniq u (by rw [hopt]; exact fun hc => Option.noConfusion hc)
              rw [← htt0] at hu0
              exact hut hu0
        | cons v rest =>
          have hsome : gvs.drop s.execCount = v :: rest := by
            have h2 := ht0
            rw [← htt0, hpt] at h2
            exact (Option.some.inj h2).symm
          have hlt : s.execCount < gvs.length := lt_of_drop_cons hsome
          have htake : gvs.take (s.execCount + 1) = gvs.take s.execCount ++ [v] :=
            take_succ_of_drop_cons hsome
          have hdropsucc : gvs.drop (s.execCount + 1) = rest :=
            drop_succ_of_drop_cons hsome
          have huniq2 : ∀ u, u ≠ t → activeRem (s.phase u) = none := by
            intro u hut
            rcases hopt : activeRem (s.phase u) with _ | r
            · rfl
            · exfalso
              have hu0 := huniq u (by rw [hopt]; exact fun hc => Option.noConfusion hc)
              rw [← htt0] at hu0
              exact hut hu0
          cases hvr : v.run with
          | ok rs =>
            simp only [gstep, hpt, hvr]
            right
            refine ⟨hr, hlt, ?_, Or.inl ⟨t, ?_, ?_⟩⟩
            · show some (s.globalResults.getD [] ++ rs)
                = some (flatResults (gvs.take (s.execCount + 1)))
              rw [hg, htake, flatResults_append]
              simp [flatResults, Validator.results, hvr]
            · show activeRem (updPhase s.phase t (.running rest) t)
                = some (gvs.drop (s.execCount + 1))
              rw [updPhase_self, hdropsucc]
              rfl
            · intro u hu
              have hu2 : activeRem (updPhase s.phase t (.running rest) u) ≠ none := hu
              by_contra hne
              rw [updPhase_ne _ _ _ _ hne] at hu2
              exact hu2 (huniq2 u hne)
          | error e =>
            simp only [gstep, hpt, hvr]
            right
            refine ⟨hr, hlt, ?_, Or.inl ⟨t, ?_, ?_⟩⟩
            · show s.globalResults = some (flatResults (gvs.take (s.execCount + 1)))
              rw [hg, htake, flatResults_append]
              simp [flatResults, Validator.results, hvr]
            · show activeRem (updPhase s.phase t (.failed e rest) t)
                = some (gvs.drop (s.execCount + 1))
              rw [updPhase_self, hdropsucc]
              rfl
            · intro u hu
              have hu2 : activeRem (updPhase s.phase t (.failed e rest) u) ≠ none := hu
              by_contra hne
              rw [updPhase_ne _ _ _ _ hne] at hu2
              exact hu2 (huniq2 u hne)
      · exfalso
        have hn := hnone t
        rw [hpt] at hn
        simp [activeRem] at hn
    | failed e rem =>
      simp only [gstep, hpt]
      exact Or.inr ⟨hr, hle, hg, hact⟩
    | done =>
      simp only [gstep, hpt]
      exact Or.inr ⟨hr, hle, hg, hact⟩

theorem grun_preserves_GInv (gvs : List Validator) (sched : List Nat)
    (s : GState) (h : GInv gvs s) : GInv gvs (grun gvs s sched) := by
  induction sched generalizing s with
  | nil => exact h
  | cons a rest ih => exact ih _ (gstep_preserves_GInv gvs s a h)

theorem gstep_globalResults_mono (gvs : List Validator) (s : GState) (t : Nat)
    (l : List VResult) (h : s.globalResults = some l) :
    ∃ l2, (gstep gvs s t).globalResults = some l2 ∧ l.IsPrefix l2 := by
  cases hpt : s.phase t with
  | start =>
    simp only [gstep, hpt, h]
    exact ⟨l, rfl, List.prefix_refl l⟩
  | running rem =>
    cases rem with
    | nil =>
      simp only [gstep, hpt]
      exact ⟨l, h, List.prefix_refl l⟩
    | cons v rest =>
      cases hvr : v.run with
      | ok rs =>
        simp only [gstep, hpt, hvr, h]
        exact ⟨l ++ rs, by simp, List.prefix_append l rs⟩
      | error e =>
        simp only [gstep, hpt, hvr]
        exact ⟨l, h, List.prefix_refl l⟩
  | failed e rem =>
    simp only [gstep, hpt]
    exact ⟨l, h, List.prefix_refl l⟩
  | done =>
    simp only [gstep, hpt]
    exact ⟨l, h, List.prefix_refl l⟩

theorem grun_globalResults_mono (gvs : List Validator) (sched : List Nat)
    (s : GState) (l : List VResult) (h : s.globalResults = some l) :
    ∃ l2, (grun gvs s sched).globalResults = some l2 ∧ l.IsPrefix l2 := by
  induction sched generalizing s l with
  | nil => exact ⟨l, h, List.prefix_refl l⟩
  | cons a rest ih =>
    obtain ⟨l1, h1, hp1⟩ := gstep_globalResults_mono gvs s a l h
    obtain ⟨l2, h2, hp2⟩ := ih _ _ h1
    exact ⟨l2, h2, hp1.trans hp2⟩

theorem wrapField_idem (f : WField) : wrapField (wrapField f) = wrapField f := by
  by_cases h : f.processed ∨ f.resolve = none
  · have h1 : wrapField f = f := by rw [wrapField, if_pos h]
    rw [h1]
    exact h1
  · have h1 : wrapField f
        = { f with processed := true, resolve := f.resolve.map .wrapped } := by
      rw [wrapField, if_neg h]
    rw [h1, wrapField, if_pos (Or.inl rfl)]

theorem wrapType_idem (t : WTypeObj) : wrapType (wrapType t) = wrapType t := by
  have hfun : wrapField ∘ wrapField = wrapField := funext wrapField_idem
  by_cases hp : t.processed
  · simp [wrapType, hp]
  · rcases hf : t.fields with _ | fs
    · simp [wrapType, hf]
    · simp [wrapType, hp, hf, List.map_map, hfun]

theorem wrapSchema_idem (s : WSchema) : wrapSchema (wrapSchema s) = wrapSchema s := by
  have hfun : wrapType ∘ wrapType = wrapType := funext wrapType_idem
  simp [wrapSchema, List.map_map, hfun]

theorem wrappedResolve_resolverCalls_le_one (cfg : Config) (field : FieldInfo)
    (defs : Registry) (resolve : Except JSError ResolveOutput) (args : List Arg)
    (pst vet eet : Int) :
    (wrappedResolve cfg field defs resolve args pst vet eet).resolverCalls ≤ 1 := by
  unfold wrappedResolve
  dsimp only
  repeat' split
  all_goals simp

/-- C5: for every context and response payload, the response merger produces
an errors list equal to the payload's existing errors, followed by each
localResults entry projected to an object containing only the message field,
followed by each globalResults entry (absent treated as empty) projected the
same way, in exactly that order, with no deduplication, no reordering, and no
non-message field of a validation result surviving into the response. -/
theorem merge_order_and_projection
    (loc : List VResult) (glob : Option (List VResult)) (pd : List ProfEntry)
    (existing : Option (List RespError)) :
    (getResponseValidationResults
        { validationResults := some loc, globalValidationResults := glob,
          profilingData := pd }
        { errors := existing }).errors
      = some (existing.getD [] ++ loc.map projectMessage
          ++ (glob.getD []).map projectMessage)
    ∧ (∀ e : VResult, projectMessage e = { message := e.message })
    ∧ (∀ m d1 d2 : String,
        projectMessage { message := m, internalData := d1 }
          = projectMessage { message := m, internalData := d2 }) := by
  refine ⟨?_, fun e => rfl, fun m d1 d2 => rfl⟩
  simp [getResponseValidationResults]

/-- C2: for every wrapped field resolution in which a context is found, the
local validators that run are exactly the concatenation of the lists
registered under the star selector, the return-type name, and
parentTypeName:fieldName, in that fixed precedence order, each lookup
yielding the empty list when unregistered, with no deduplication and no
short-circuiting. -/
theorem local_validator_selection
    (cfg : Config) (field : FieldInfo) (defs : Registry) (args : List Arg)
    (v0 : Validity) (lr0 g0 : List VResult) (ast : Arg) (ptn : String)
    (resolve : Except JSError ResolveOutput) (pst vet eet : Int)
    (hfv : findValidity args = some v0)
    (hfa : findAst args = some ast)
    (hptn : ast.parentType = some ptn)
    (hv : v0.validationResults = some lr0)
    (hg : v0.globalValidationResults = some g0)
    (hok : ∀ v ∈ lookupDefs defs "*" ++ lookupDefs defs field.typeName
        ++ lookupDefs defs (ptn ++ ":" ++ field.name), v.isOk = true) :
    (wrappedResolve cfg field defs resolve args pst vet eet).localCalls
      = (lookupDefs defs "*" ++ lookupDefs defs field.typeName
          ++ lookupDefs defs (ptn ++ ":" ++ field.name)).map Validator.vid
    ∧ (getValidators defs field ptn).1
      = lookupDefs defs "*" ++ lookupDefs defs field.typeName
          ++ lookupDefs defs (ptn ++ ":" ++ field.name) := by
  have hrun := runValidatorsFrom_allOk _ lr0 hok
  simp only [List.append_assoc] at hrun
  constructor
  · cases resolve with
    | error e =>
      simp [wrappedResolve, hfv, hfa, hptn, getValidationResults, hv, hg,
        getValidators, discoveredParent, hrun]
    | ok out =>
      cases out with
      | value val =>
        simp [wrappedResolve, hfv, hfa, hptn, getValidationResults, hv, hg,
          getValidators, discoveredParent, hrun]
      | dataValidationResult d errs =>
        simp [wrappedResolve, hfv, hfa, hptn, getValidationResults, hv, hg,
          getValidators, discoveredParent, hrun]
  · simp [getValidators]

/-- A sample context as an adapter would create it (both result slots
initialised, empty profiling). -/
def exampleValidity : Validity :=
  { validationResults := some [], globalValidationResults := some [],
    profilingData := [] }

/-- A sample argument carrying the context on its rootValue. -/
def exampleArgContext : Arg :=
  { rootValueValidity := some exampleValidity, parentType := none, path := "" }

/-- A sample info argument with parentType and path. -/
def exampleArgInfo : Arg :=
  { rootValueValidity := none, parentType := some "Query", path := "p" }

/-- A sample argument list for an invocation that finds a context. -/
def exampleArgs : List Arg := [exampleArgContext, exampleArgInfo]

/-- A registry with nothing registered. -/
def emptyRegistry : Registry := fun _ => none

/-- A sample field. -/
def exampleField : FieldInfo := { name := "f", typeName := "T" }

/-- A sample configuration. -/
def exampleConfig : Config :=
  { wrapErrors := false, enableProfiling := false,
    unhandledErrorWrapper := onUnhandledError "cid" }

/-- C3: wrapping is idempotent. Wrapping a field twice, directly or via
overlapping type or schema wraps, leaves exactly one interception layer,
because the Processed marker is checked and set synchronously at wrap time
before the replacement resolver is installed; a wrap call on a marked field,
or on a field without a resolver, is a no-op; and each invocation of the
wrapped resolver calls the original resolver at most once, and exactly once
whenever validation completes without throwing. -/
theorem wrapping_idempotent_one_layer :
    (∀ f : WField, wrapField (wrapField f) = wrapField f)
    ∧ (∀ t : WTypeObj, wrapType (wrapType t) = wrapType t)
    ∧ (∀ s : WSchema, wrapSchema (wrapSchema s) = wrapSchema s)
    ∧ (∀ f : WField, f.processed = true → wrapField f = f)
    ∧ (∀ f : WField, f.resolve = none → wrapField f = f)
    ∧ (∀ (nm tn : String) (i : Nat),
        (wrapField { name := nm, typeName := tn, resolve := some (.original i), processed := false }).resolve
          = some (.wrapped (.original i))
        ∧ (wrapField (wrapField { name := nm, typeName := tn, resolve := some (.original i), processed := false })).resolve
          = some (.wrapped (.original i)))
    ∧ (∀ (cfg : Config) (field : FieldInfo) (defs : Registry)
        (resolve : Except JSError ResolveOutput) (args : List Arg)
        (pst vet eet : Int),
        (wrappedResolve cfg field defs resolve args pst vet eet).resolverCalls ≤ 1
        ∧ (findValidity args = none →
            (wrappedResolve cfg field defs resolve args pst vet eet).resolverCalls = 1)
        ∧ (∀ (v0 : Validity) (lr0 g0 : List VResult),
            findValidity args = some v0 →
            v0.validationResults = some lr0 →
            v0.globalValidationResults = some g0 →
            (∀ v ∈ selectedLocal defs field args, v.isOk = true) →
            (wrappedResolve cfg field defs resolve args pst vet eet).resolverCalls = 1)) := by
  refine ⟨wrapField_idem, wrapType_idem, wrapSchema_idem, ?_, ?_, ?_, ?_⟩
  · intro f h
    rw [wrapField, if_pos (Or.inl h)]
  · intro f h
    rw [wrapField, if_pos (Or.inr h)]
  · intro nm tn i
    constructor
    · rw [wrapField, if_neg (by simp)]
      rfl
    · rw [wrapField_idem, wrapField, if_neg (by simp)]
      rfl
  · intro cfg field defs resolve args pst vet eet
    refine ⟨wrappedResolve_resolverCalls_le_one cfg field defs resolve args pst vet eet,
      ?_, ?_⟩
    · intro hnone
      cases resolve with
      | error e => simp [wrappedResolve, hnone]
      | ok out => cases out <;> simp [wrappedResolve, hnone]
    · intro v0 lr0 g0 hfv hv hg hok
      have hrun := runValidatorsFrom_allOk _ lr0 hok
      simp only [selectedLocal, getValidators, List.append_assoc] at hrun
      cases resolve with
      | error e =>
        simp [wrappedResolve, hfv, getValidationResults, hv, hg,
          getValidators, hrun]
      | ok out =>
        cases out <;>
          simp [wrappedResolve, hfv, getValidationResults, hv, hg,
            getValidators, hrun]

/-- Closed instance of the C3 theorem at concrete inputs, discharging its
hypotheses. -/
theorem wrapping_idempotent_one_layer_witness :
    wrapField { name := "f", typeName := "T", resolve := some (.original 0), processed := true }
      = { name := "f", typeName := "T", resolve := some (.original 0), processed := true }
    ∧ (wrappedResolve exampleConfig exampleField emptyRegistry
        (.ok (.value (.int 7))) [] 0 0 0).resolverCalls = 1
    ∧ (wrappedResolve exampleConfig exampleField emptyRegistry
        (.ok (.value (.int 7))) exampleArgs 0 0 0).resolverCalls = 1 :=
  ⟨wrapping_idempotent_one_layer.2.2.2.1 _ rfl,
   (wrapping_idempotent_one_layer.2.2.2.2.2.2 exampleConfig exampleField
      emptyRegistry (.ok (.value (.int 7))) [] 0 0 0).2.1 rfl,
   (wrapping_idempotent_one_layer.2.2.2.2.2.2 exampleConfig exampleField
      emptyRegistry (.ok (.value (.int 7))) exampleArgs 0 0 0).2.2
     exampleValidity [] [] rfl rfl rfl
     (by simp [selectedLocal, getValidators, emptyRegistry, lookupDefs])⟩

/-- A validator that succeeds with a single message. -/
def okValidator (i : Nat) (msg : String) : Validator :=
  { vid := i, run := .ok [{ message := msg, internalData := "secret" }] }

/-- A registry with one validator under each selector form. -/
def exampleRegistry : Registry := fun k =>
  if k = "*" then some [okValidator 1 "star"]
  else if k = "T" then some [okValidator 2 "type"]
  else if k = "Query:f" then some [okValidator 3 "parentfield"]
  else if k = "$" then some [okValidator 4 "global"]
  else none

/-- Closed instance of the C2 theorem at concrete inputs, discharging its
hypotheses. -/
theorem local_validator_selection_witness :
    (wrappedResolve exampleConfig exampleField exampleRegistry
        (.ok (.value (.int 1))) exampleArgs 0 0 0).localCalls = [1, 2, 3] := by
  have h := (local_validator_selection exampleConfig exampleField exampleRegistry
    exampleArgs exampleValidity [] [] exampleArgInfo "Query"
    (.ok (.value (.int 1))) 0 0 0 rfl rfl rfl rfl rfl (by decide)).1
  rw [h]
  decide

/-- C4: for every resolver result that is a Data+Errors wrapper, the wrapped
resolver (with a context found) appends the wrapper's errors to the context's
local results and returns the wrapper's data as the field's effective value;
for every other result the effective value is the raw result unchanged. -/
theorem data_errors_unwrap
    (cfg : Config) (field : FieldInfo) (defs : Registry) (args : List Arg)
    (v0 : Validity) (lr0 g0 : List VResult) (pst vet eet : Int)
    (hfv : findValidity args = some v0)
    (hv : v0.validationResults = some lr0)
    (hg : v0.globalValidationResults = some g0)
    (hok : ∀ v ∈ selectedLocal defs field args, v.isOk = true) :
    (∀ (d : Value) (errs : List VResult),
      (wrappedResolve cfg field defs (.ok (.dataValidationResult d errs))
          args pst vet eet).output = .ok d
      ∧ (wrappedResolve cfg field defs (.ok (.dataValidationResult d errs))
          args pst vet eet).validity.map Validity.validationResults
        = some (some (lr0 ++ flatResults (selectedLocal defs field args) ++ errs)))
    ∧ (∀ val : Value,
      (wrappedResolve cfg field defs (.ok (.value val))
          args pst vet eet).output = .ok val
      ∧ (wrappedResolve cfg field defs (.ok (.value val))
          args pst vet eet).validity.map Validity.validationResults
        = some (some (lr0 ++ flatResults (selectedLocal defs field args)))) := by
  constructor
  · intro d errs
    rcases hfa2 : findAst args with _ | ast <;>
      (have hrun := runValidatorsFrom_allOk _ lr0 hok
       simp [selectedLocal, getValidators, List.append_assoc, discoveredParent,
         hfa2] at hrun
       by_cases hep : cfg.enableProfiling = true <;>
         by_cases herrs : errs = [] <;>
           simp [wrappedResolve, hfv, getValidationResults, hv, hg, getValidators,
             discoveredParent, hrun, hfa2, hep, herrs, storeProfilingInfo,
             selectedLocal, flatResults])
  · intro val
    rcases hfa2 : findAst args with _ | ast <;>
      (have hrun := runValidatorsFrom_allOk _ lr0 hok
       simp [selectedLocal, getValidators, List.append_assoc, discoveredParent,
         hfa2] at hrun
       by_cases hep : cfg.enableProfiling = true <;>
         simp [wrappedResolve, hfv, getValidationResults, hv, hg, getValidators,
           discoveredParent, hrun, hfa2, hep, storeProfilingInfo,
           selectedLocal, flatResults])

/-- Closed instance of the C4 theorem at concrete inputs, discharging its
hypotheses: a resolver returning data 42 with one error yields effective
value 42 and appends the error to the local results. -/
theorem data_errors_unwrap_witness :
    (wrappedResolve exampleConfig exampleField emptyRegistry
        (.ok (.dataValidationResult (.int 42) [{ message := "bad", internalData := "" }]))
        exampleArgs 0 0 0).output = .ok (.int 42)
    ∧ (wrappedResolve exampleConfig exampleField emptyRegistry
        (.ok (.dataValidationResult (.int 42) [{ message := "bad", internalData := "" }]))
        exampleArgs 0 0 0).validity.map Validity.validationResults
      = some (some [{ message := "bad", internalData := "" }]) := by
  have h := (data_errors_unwrap exampleConfig exampleField emptyRegistry exampleArgs
    exampleValidity [] [] 0 0 0 rfl rfl rfl (by decide)).1
    (.int 42) [{ message := "bad", internalData := "" }]
  refine ⟨h.1, ?_⟩
  rw [h.2]
  decide

/-- Counterexample to C6 as stated: with no context found but wrapErrors
enabled, a resolver throwing boom is NOT propagated unchanged - the catch-all
applies the configured error wrapper regardless of whether a context was
found. -/
theorem no_context_error_not_unchanged_cex :
    (wrappedResolve
        { wrapErrors := true, enableProfiling := false,
          unhandledErrorWrapper := onUnhandledError "cid-1" }
        { name := "f", typeName := "T" } (fun _ => none)
        (.error { message := "boom" }) [] 0 0 0).output
      ≠ .error { message := "boom" } := by
  simp [wrappedResolve, findValidity, applyWrap, onUnhandledError]

/-- C6 (amended): for every invocation in which no argument carries a
context, validation and profiling are skipped (no validator runs, no context
is touched) and the original resolver is called exactly once; a plain result
propagates unchanged; a Data+Errors wrapper still has its data taken as the
effective value (its errors are discarded, there being no context to receive
them); and a thrown error propagates unchanged only when config.wrapErrors is
false - when it is true the error is replaced by config.unhandledErrorWrapper
applied to the original, exactly as in the with-context path. -/
theorem no_context_skips_validation
    (cfg : Config) (field : FieldInfo) (defs : Registry)
    (resolve : Except JSError ResolveOutput) (args : List Arg)
    (pst vet eet : Int)
    (hnone : findValidity args = none) :
    (wrappedResolve cfg field defs resolve args pst vet eet).validity = none
    ∧ (wrappedResolve cfg field defs resolve args pst vet eet).globalCalls = []
    ∧ (wrappedResolve cfg field defs resolve args pst vet eet).localCalls = []
    ∧ (wrappedResolve cfg field defs resolve args pst vet eet).resolverCalls = 1
    ∧ (∀ val : Value, resolve = .ok (.value val) →
        (wrappedResolve cfg field defs resolve args pst vet eet).output = .ok val)
    ∧ (∀ (d : Value) (errs : List VResult), resolve = .ok (.dataValidationResult d errs) →
        (wrappedResolve cfg field defs resolve args pst vet eet).output = .ok d)
    ∧ (∀ e : JSError, resolve = .error e →
        (wrappedResolve cfg field defs resolve args pst vet eet).output
          = .error (applyWrap cfg e))
    ∧ (∀ e : JSError, resolve = .error e → cfg.wrapErrors = false →
        (wrappedResolve cfg field defs resolve args pst vet eet).output = .error e) := by
  refine ⟨?_, ?_, ?_, ?_, ?_, ?_, ?_, ?_⟩
  · cases resolve with
    | error e => simp [wrappedResolve, hnone]
    | ok out => cases out <;> simp [wrappedResolve, hnone]
  · cases resolve with
    | error e => simp [wrappedResolve, hnone]
    | ok out => cases out <;> simp [wrappedResolve, hnone]
  · cases resolve with
    | error e => simp [wrappedResolve, hnone]
    | ok out => cases out <;> simp [wrappedResolve, hnone]
  · cases resolve with
    | error e => simp [wrappedResolve, hnone]
    | ok out => cases out <;> simp [wrappedResolve, hnone]
  · intro val hres
    subst hres
    simp [wrappedResolve, hnone]
  · intro d errs hres
    subst hres
    simp [wrappedResolve, hnone]
  · intro e hres
    subst hres
    simp [wrappedResolve, hnone]
  · intro e hres hwrap
    subst hres
    simp [wrappedResolve, hnone, applyWrap, hwrap]

/-- Closed instance of the amended C6 theorem at concrete inputs,
discharging its hypotheses. -/
theorem no_context_skips_validation_witness :
    (wrappedResolve exampleConfig exampleField emptyRegistry
        (.error { message := "boom" }) [] 0 0 0).output
      = .error { message := "boom" } :=
  (no_context_skips_validation exampleConfig exampleField emptyRegistry
      (.error { message := "boom" }) [] 0 0 0 rfl).2.2.2.2.2.2.2
    { message := "boom" } rfl rfl

/-- The default wrapper's message determines the uuid embedded in it. -/
theorem onUnhandledError_uuid_inj {u1 u2 : String} {e1 e2 : JSError}
    (h : (onUnhandledError u1 e1).message = (onUnhandledError u2 e2).message) :
    u1 = u2 := by
  simp only [onUnhandledError] at h
  have hd := congrArg String.data h
  simp only [String.data_append, List.append_assoc] at hd
  have h1 := List.append_cancel_left hd
  have h2 := List.append_cancel_right h1
  cases u1
  cases u2
  simp_all

/-- C7: any exception raised by global validation, local validation, or the
original resolver leaves the wrapped resolver through the catch-all: with
config.wrapErrors true the rejection carries config.unhandledErrorWrapper
applied to the original error, otherwise the original error propagates
unchanged; the default wrapper embeds the freshly generated correlation id in
its generic message, so two invocations that wrap with different ids produce
different messages. -/
theorem error_wrapping_policy
    (cfg : Config) (field : FieldInfo) (defs : Registry) (args : List Arg)
    (v0 : Validity) (lr0 : List VResult) (pst vet eet : Int)
    (hfv : findValidity args = some v0)
    (hv : v0.validationResults = some lr0) :
    (∀ (resolve : Except JSError ResolveOutput) (e : JSError)
        (gs1 gs2 : List Validator) (bad : Validator),
      v0.globalValidationResults = none →
      lookupDefs defs "$" = gs1 ++ bad :: gs2 →
      (∀ v ∈ gs1, v.isOk = true) → bad.run = .error e →
      (wrappedResolve cfg field defs resolve args pst vet eet).output
        = .error (applyWrap cfg e))
    ∧ (∀ (resolve : Except JSError ResolveOutput) (e : JSError)
        (g0 : List VResult) (ls1 ls2 : List Validator) (bad : Validator),
      v0.globalValidationResults = some g0 →
      selectedLocal defs field args = ls1 ++ bad :: ls2 →
      (∀ v ∈ ls1, v.isOk = true) → bad.run = .error e →
      (wrappedResolve cfg field defs resolve args pst vet eet).output
        = .error (applyWrap cfg e))
    ∧ (∀ (e : JSError) (g0 : List VResult),
      v0.globalValidationResults = some g0 →
      (∀ v ∈ selectedLocal defs field args, v.isOk = true) →
      (wrappedResolve cfg field defs (.error e) args pst vet eet).output
        = .error (applyWrap cfg e))
    ∧ (∀ e : JSError,
      (cfg.wrapErrors = true → applyWrap cfg e = cfg.unhandledErrorWrapper e)
      ∧ (cfg.wrapErrors = false → applyWrap cfg e = e))
    ∧ (∀ (u1 u2 : String) (e1 e2 : JSError), u1 ≠ u2 →
      (onUnhandledError u1 e1).message ≠ (onUnhandledError u2 e2).message) := by
  refine ⟨?_, ?_, ?_, ?_, ?_⟩
  · intro resolve e gs1 gs2 bad hgn hsplit hok1 hbad
    have hthrow := runValidatorsFrom_throw gs1 gs2 bad [] e hok1 hbad
    simp [wrappedResolve, hfv, getValidationResults, hv, hgn, getValidators,
      hsplit, hthrow]
  · intro resolve e g0 ls1 ls2 bad hgs hsplit hok1 hbad
    have hthrow := runValidatorsFrom_throw ls1 ls2 bad lr0 e hok1 hbad
    simp only [selectedLocal, getValidators, List.append_assoc] at hsplit
    simp [wrappedResolve, hfv, getValidationResults, hv, hgs, getValidators,
      hsplit, hthrow]
  · intro e g0 hgs hok
    have hrun := runValidatorsFrom_allOk _ lr0 hok
    simp only [selectedLocal, getValidators, List.append_assoc] at hrun
    simp [wrappedResolve, hfv, getValidationResults, hv, hgs, getValidators, hrun]
  · intro e
    constructor <;> intro h <;> simp [applyWrap, h]
  · intro u1 u2 e1 e2 hne h
    exact hne (onUnhandledError_uuid_inj h)

/-- Closed instance of the C7 theorem at concrete inputs, discharging its
hypotheses: a resolver throwing boom under wrapErrors rejects with the
wrapped generic error, and two distinct correlation ids give two distinct
messages. -/
theorem error_wrapping_policy_witness :
    (wrappedResolve
        { wrapErrors := true, enableProfiling := false,
          unhandledErrorWrapper := onUnhandledError "cid-7" }
        exampleField exampleRegistry (.error { message := "boom" })
        exampleArgs 0 0 0).output
      = .error (onUnhandledError "cid-7" { message := "boom" })
    ∧ (onUnhandledError "a" { message := "x" }).message
      ≠ (onUnhandledError "b" { message := "y" }).message := by
  constructor
  · have h := (error_wrapping_policy
      { wrapErrors := true, enableProfiling := false,
        unhandledErrorWrapper := onUnhandledError "cid-7" }
      exampleField exampleRegistry exampleArgs exampleValidity [] 0 0 0
      rfl rfl).2.2.1 { message := "boom" } [] rfl (by decide)
    simpa [applyWrap] using h
  · exact (error_wrapping_policy
      { wrapErrors := true, enableProfiling := false,
        unhandledErrorWrapper := onUnhandledError "cid-7" }
      exampleField exampleRegistry exampleArgs exampleValidity [] 0 0 0
      rfl rfl).2.2.2.2 "a" "b" { message := "x" } { message := "y" } (by decide)

/-- C8: for every profiled field resolution (profiling enabled, context and
ast found, validation succeeding, resolver resolving), the appended profiling
record satisfies exactly: validation = vet - pst (entry to end of local
validation), execution = eet - pst (entry to end of unwrapping), and
totalExecution = execution - validation. -/
theorem profiling_arithmetic
    (cfg : Config) (field : FieldInfo) (defs : Registry) (args : List Arg)
    (v0 : Validity) (lr0 g0 : List VResult) (ast : Arg) (out : ResolveOutput)
    (pst vet eet : Int)
    (hep : cfg.enableProfiling = true)
    (hfv : findValidity args = some v0)
    (hfa : findAst args = some ast)
    (hv : v0.validationResults = some lr0)
    (hg : v0.globalValidationResults = some g0)
    (hok : ∀ v ∈ selectedLocal defs field args, v.isOk = true) :
    ∃ pr : Profile,
      (wrappedResolve cfg field defs (.ok out) args pst vet eet).validity.map
          Validity.profilingData
        = some (v0.profilingData ++ [{ path := ast.path, profile := pr }])
      ∧ pr.validation = vet - pst
      ∧ pr.execution = eet - pst
      ∧ pr.totalExecution = pr.execution - pr.validation
      ∧ pr.name = field.name
      ∧ pr.fieldsExecution = 0 := by
  refine ⟨{ name := field.name, validation := vet - pst, execution := eet - pst, fieldsExecution := 0, totalExecution := (eet - pst) - (vet - pst) }, ?_, rfl, rfl, rfl, rfl, rfl⟩
  have hrun := runValidatorsFrom_allOk _ lr0 hok
  simp [selectedLocal, getValidators, List.append_assoc, discoveredParent,
    hfa] at hrun
  cases out with
  | value val =>
    simp [wrappedResolve, hfv, hfa, getValidationResults, hv, hg, getValidators,
      discoveredParent, hrun, hep, storeProfilingInfo]
  | dataValidationResult d errs =>
    by_cases herrs : errs = [] <;>
      simp [wrappedResolve, hfv, hfa, getValidationResults, hv, hg, getValidators,
        discoveredParent, hrun, hep, herrs, storeProfilingInfo]

/-- Closed instance of the C8 theorem: validation takes 5ms, the resolver 10ms
more, and the stored record reads validation 5, execution 15, total 10. -/
theorem profiling_arithmetic_witness :
    (wrappedResolve
        { wrapErrors := false, enableProfiling := true,
          unhandledErrorWrapper := onUnhandledError "cid-8" }
        exampleField emptyRegistry (.ok (.value (.int 1)))
        exampleArgs 0 5 15).validity.map Validity.profilingData
      = some [{ path := "p", profile := { name := "f", validation := 5, execution := 15, fieldsExecution := 0, totalExecution := 10 } }] := by
  obtain ⟨pr, h1, h2, h3, h4, h5, h6⟩ := profiling_arithmetic
    { wrapErrors := false, enableProfiling := true,
      unhandledErrorWrapper := onUnhandledError "cid-8" }
    exampleField emptyRegistry exampleArgs exampleValidity [] [] exampleArgInfo
    (.value (.int 1)) 0 5 15 rfl rfl rfl rfl rfl (by decide)
  obtain ⟨n, va, ex, fe, te⟩ := pr
  simp only at h2 h3 h4 h5 h6
  norm_num at h2 h3
  subst h2
  subst h3
  subst h5
  subst h6
  norm_num at h4
  subst h4
  simpa [exampleValidity, exampleArgInfo] using h1

/-- Turning profiling off does not change the error-wrapping policy. -/
theorem applyWrap_enableProfiling_irrel (cfg : Config) (e : JSError) :
    applyWrap { cfg with enableProfiling := false } e = applyWrap cfg e := rfl

/-- C9: a failure while recording profiling (the ast/field-location argument
being unavailable, so reading its path throws) is caught inside the inner
try/catch: the invocation behaves exactly as if profiling were disabled, the
context's profiling list is untouched, and on the normal path the resolver's
value is still returned, with no error propagating to the caller. -/
theorem profiling_failure_contained :
    (∀ (cfg : Config) (field : FieldInfo) (defs : Registry)
        (resolve : Except JSError ResolveOutput) (args : List Arg)
        (pst vet eet : Int),
      findAst args = none →
      wrappedResolve cfg field defs resolve args pst vet eet
        = wrappedResolve { cfg with enableProfiling := false } field defs
            resolve args pst vet eet)
    ∧ (∀ (cfg : Config) (field : FieldInfo) (defs : Registry)
        (resolve : Except JSError ResolveOutput) (args : List Arg)
        (pst vet eet : Int) (v0 v1 : Validity),
      findAst args = none →
      findValidity args = some v0 →
      (wrappedResolve cfg field defs resolve args pst vet eet).validity = some v1 →
      v1.profilingData = v0.profilingData)
    ∧ (∀ (cfg : Config) (field : FieldInfo) (defs : Registry) (args : List Arg)
        (v0 : Validity) (lr0 g0 : List VResult) (val : Value) (pst vet eet : Int),
      findValidity args = some v0 →
      findAst args = none →
      v0.validationResults = some lr0 →
      v0.globalValidationResults = some g0 →
      (∀ v ∈ selectedLocal defs field args, v.isOk = true) →
      (wrappedResolve cfg field defs (.ok (.value val)) args pst vet eet).output
        = .ok val) := by
  refine ⟨?_, ?_, ?_⟩
  · intro cfg field defs resolve args pst vet eet hfa
    cases hfv : findValidity args with
    | none =>
      cases resolve with
      | error e => simp [wrappedResolve, hfv, applyWrap_enableProfiling_irrel]
      | ok out =>
        cases out <;> simp [wrappedResolve, hfv, applyWrap_enableProfiling_irrel]
    | some v0 =>
      rcases hvv : v0.validationResults with _ | lr0 <;>
        rcases hgg : v0.globalValidationResults with _ | g0 <;>
          (cases resolve with
           | error e =>
             simp [wrappedResolve, hfv, hvv, hgg, hfa, getValidationResults,
               ite_self, applyWrap_enableProfiling_irrel]
           | ok out =>
             cases out <;>
               simp [wrappedResolve, hfv, hvv, hgg, hfa, getValidationResults,
                 ite_self, applyWrap_enableProfiling_irrel])
  · intro cfg field defs resolve args pst vet eet v0 v1 hfa hfv hout
    rcases hvv : v0.validationResults with _ | lr0 <;>
      rcases hgg : v0.globalValidationResults with _ | g0 <;>
        (unfold wrappedResolve at hout
         simp only [hfv, hfa, getValidationResults, hvv, hgg, ite_self] at hout
         repeat' split at hout
         all_goals
           (have h := Option.some.inj hout
            subst h
            rfl))
  · intro cfg field defs args v0 lr0 g0 val pst vet eet hfv hfa hv hg hok
    have hrun := runValidatorsFrom_allOk _ lr0 hok
    simp [selectedLocal, getValidators, List.append_assoc, discoveredParent,
      hfa] at hrun
    by_cases hep : cfg.enableProfiling = true <;>
      simp [wrappedResolve, hfv, getValidationResults, hv, hg, getValidators,
        discoveredParent, hrun, hfa, hep]

/-- Closed instance of the C9 theorem: profiling enabled but no ast argument
present still returns the resolver value, with no error. -/
theorem profiling_failure_contained_witness :
    (wrappedResolve
        { wrapErrors := false, enableProfiling := true,
          unhandledErrorWrapper := onUnhandledError "cid-9" }
        exampleField emptyRegistry (.ok (.value (.int 3)))
        [exampleArgContext] 0 0 0).output = .ok (.int 3) :=
  profiling_failure_contained.2.2
    { wrapErrors := false, enableProfiling := true,
      unhandledErrorWrapper := onUnhandledError "cid-9" }
    exampleField emptyRegistry [exampleArgContext] exampleValidity [] []
    (.int 3) 0 0 0 rfl rfl rfl rfl (by decide)

/-- C1: across any interleaving of any number of field resolutions sharing
one context, once the global phase has completed (no task is still inside or
stuck in the global run) and at least one task reached the check, exactly one
task performed the check-and-initialise, the number of global-validator
awaits equals the number of registered global validators, and the shared list
holds every validator's results exactly once, in registration order. -/
theorem global_validators_run_once
    (gvs : List Validator) (sched : List Nat)
    (hdone : ∀ t, activeRem ((grun gvs ginit sched).phase t) = none)
    (hbegun : (grun gvs ginit sched).globalResults ≠ none) :
    (grun gvs ginit sched).execCount = gvs.length
    ∧ (grun gvs ginit sched).runs = 1
    ∧ (grun gvs ginit sched).globalResults = some (flatResults gvs) := by
  have hinv := grun_preserves_GInv gvs sched ginit (GInv_ginit gvs)
  rcases hinv with ⟨hg, _, _, _⟩ | ⟨hr, _, hg, hact⟩
  · exact absurd hg hbegun
  · rcases hact with ⟨t0, ht0, _⟩ | ⟨_, hexec⟩
    · exfalso
      rw [hdone t0] at ht0
      exact Option.noConfusion ht0
    · refine ⟨hexec, hr, ?_⟩
      rw [hg, hexec, List.take_length]

/-- One global validator returning a single violation. -/
def witGvs : List Validator :=
  [{ vid := 0, run := .ok [{ message := "g", internalData := "" }] }]

/-- Closed instance of the C1 theorem: two tasks, task 0 runs the single
global validator, task 1 skips; the validator executed exactly once. -/
theorem global_validators_run_once_witness :
    (grun witGvs ginit [0, 0, 0, 1]).execCount = witGvs.length
    ∧ (grun witGvs ginit [0, 0, 0, 1]).runs = 1
    ∧ (grun witGvs ginit [0, 0, 0, 1]).globalResults = some (flatResults witGvs) := by
  refine global_validators_run_once witGvs [0, 0, 0, 1] ?_ (by simp [grun, gstep, ginit, updPhase, witGvs])
  intro t
  by_cases h1 : t = 1
  · subst h1
    rfl
  · by_cases h0 : t = 0
    · subst h0
      rfl
    · simp [grun, gstep, ginit, updPhase, activeRem, h0, h1, witGvs]

/-- C10: once any task has begun the global run (the shared slot is
non-absent), it stays non-absent under any further scheduling, even when a
global validator later throws: exactly one task ever ran the
check-and-initialise, no validator is awaited more often than it is
registered, the violations already appended persist (the earlier list is a
prefix of the later one), and each of them reaches the merged response
errors. -/
theorem global_run_begun_persists
    (gvs : List Validator) (sched1 sched2 : List Nat) (l : List VResult)
    (hbegun : (grun gvs ginit sched1).globalResults = some l) :
    ∃ l2, (grun gvs (grun gvs ginit sched1) sched2).globalResults = some l2
      ∧ l.IsPrefix l2
      ∧ (grun gvs (grun gvs ginit sched1) sched2).runs = 1
      ∧ (grun gvs (grun gvs ginit sched1) sched2).execCount ≤ gvs.length
      ∧ (∀ (r : VResult) (lr : List VResult) (pd : List ProfEntry) (payload : Payload),
          r ∈ l →
          ({ message := r.message } : RespError) ∈
            ((getResponseValidationResults
                { validationResults := some lr,
                  globalValidationResults :=
                    (grun gvs (grun gvs ginit sched1) sched2).globalResults,
                  profilingData := pd } payload).errors.getD [])) := by
  obtain ⟨l2, h2, hpre⟩ := grun_globalResults_mono gvs sched2 _ l hbegun
  have hinv := grun_preserves_GInv gvs sched2 _
    (grun_preserves_GInv gvs sched1 ginit (GInv_ginit gvs))
  rcases hinv with ⟨hg, _, _, _⟩ | ⟨hr, hle, _, _⟩
  · rw [h2] at hg
    exact Option.noConfusion hg
  · refine ⟨l2, h2, hpre, hr, hle, ?_⟩
    intro r lr pd payload hrl
    rw [h2]
    simp only [getResponseValidationResults, Option.getD_some]
    refine List.mem_append.mpr (Or.inr ?_)
    exact List.mem_map.mpr ⟨r, hpre.subset hrl, rfl⟩

/-- Two global validators: the first succeeds, the second throws. -/
def witGvs2 : List Validator :=
  [{ vid := 0, run := .ok [{ message := "g1", internalData := "" }] },
   { vid := 1, run := .error { message := "boomg" } }]

/-- Closed instance of the C10 theorem: after the run began and appended one
violation, a further step in which the second validator throws leaves the
slot populated, the run count at one, and the executions bounded. -/
theorem global_run_begun_persists_witness :
    (grun witGvs2 (grun witGvs2 ginit [0, 0]) [0]).runs = 1
    ∧ (grun witGvs2 (grun witGvs2 ginit [0, 0]) [0]).execCount ≤ witGvs2.length := by
  obtain ⟨l2, h2, hpre, hr, hle, hmem⟩ := global_run_begun_persists witGvs2 [0, 0] [0]
    [{ message := "g1", internalData := "" }] rfl
  exact ⟨hr, hle⟩
